import Mathlib

/-!
Verification of the chart/metrics rendering core of `pkgdb`
(`src/pkgdb/utils.py`, `src/pkgdb/badges.py`, `src/pkgdb/reports.py`).

Modelling conventions:
* Python `int` is modelled by `Int`, or by `Nat` where the data model fixes
  the value as a count ≥ 0 (`NumericSeries` values, download counts).
* The count formatter's float pipeline (`count / den` then `f"{x:.1f}"`)
  is modelled bit-exactly: `f64Div` computes the correctly rounded
  (ties-to-even) binary64 mantissa/exponent of the quotient with integer
  arithmetic, `none` standing for the `OverflowError` CPython raises
  beyond the binary64 range, and `fmt1f` rounds the exact decimal
  expansion of that binary64 value half to even at one decimal, exactly
  as CPython's formatting does.
* Chart-geometry float arithmetic is modelled by exact rational
  arithmetic; the properties claimed of it (angle sums within rounding
  tolerance, zero or positive widths, even index spacing) are exactly
  those preserved by the binary64 evaluation the code performs.
* SVG output strings whose bodies contain trigonometric float coordinates
  (pie arc paths, chart markup) are modelled structurally: one Lean
  constructor per appended SVG element, carrying the numeric/label payload
  the element is built from.  Styling-only attributes (colors, font sizes)
  that no claim mentions are kept where cheap (hue) and otherwise omitted.
-/

namespace Pkgdb

/-! ## MetricsCalculator: badges._format_count (badges.py lines 4-15)

The code formats `count / 1e9` (resp. `1e6`, `1e3`) with `f"{x:.1f}"`.
Both steps are modelled bit-exactly with integer arithmetic:
CPython's int/int true division returns the binary64 value nearest the
exact quotient (ties to even), raising `OverflowError` beyond the
binary64 range, and `.1f` then rounds the exact decimal expansion of
that binary64 value half to even at one decimal. -/

/-- Round-half-to-even of the exact rational `a / den` (`den > 0`),
computed with integer arithmetic: the nearest integer, ties going to the
even one. -/
def rheDiv (a den : Nat) : Nat :=
  let q := a / den
  let r := a % den
  if 2 * r < den then q
  else if den < 2 * r then q + 1
  else if q % 2 = 0 then q else q + 1

/-- Fuel-bounded floor of the base-2 logarithm (fuel 1100 in
`floorLog2` exceeds every binary64 exponent, so the cap is reached only
far beyond the overflow threshold, where the result 1100 still registers
as overflow). -/
def floorLog2Aux : Nat → Nat → Nat
  | 0, _ => 0
  | fuel + 1, q => if 2 ≤ q then floorLog2Aux fuel (q / 2) + 1 else 0

/-- Floor of the base-2 logarithm of a positive quotient. -/
def floorLog2 (q : Nat) : Nat := floorLog2Aux 1100 q

/-- The binary64 value of `n / den` (for `1 ≤ den ≤ n`, so the quotient
is at least 1), as CPython's int/int true division computes it: the
correctly rounded (round-to-nearest, ties-to-even) pair `(m, E)` with
value `m * 2 ^ (E - 52)` and `m ∈ [2^52, 2^53)`; `none` models the
`OverflowError` raised when the quotient exceeds the binary64 range. -/
def f64Div (n den : Nat) : Option (Nat × Nat) :=
  let E := floorLog2 (n / den)
  let m := rheDiv (n * 2 ^ (52 - E)) (den * 2 ^ (E - 52))
  let p := if m = 2 ^ 53 then (2 ^ 52, E + 1) else (m, E)
  if 1024 ≤ p.2 then none else some p

/-- CPython `f"{v:.1f}"` of the binary64 value `v = m * 2 ^ (E - 52)`:
the exact decimal expansion of `v`, rounded half to even at one
decimal. -/
def fmt1f (m E : Nat) : String :=
  let t := rheDiv (m * 10 * 2 ^ (E - 52)) (2 ^ (52 - E))
  toString (t / 10) ++ "." ++ toString (t % 10)

/-- Python `f"{n/den:.1f}"` for `1 ≤ den ≤ n`: binary64 division
followed by one-decimal formatting; `none` models `OverflowError`. -/
def fmtScaled (n den : Nat) : Option String :=
  (f64Div n den).map fun p => fmt1f p.1 p.2

/-- `badges._format_count`: suffix thresholds at 1e9/1e6/1e3 with one
decimal place, plain integer below 1000; `none` models the
`OverflowError` the float division raises for quotients beyond the
binary64 range. -/
def _format_count (count : Nat) : Option String :=
  if count ≥ 1000000000 then (fmtScaled count 1000000000).map (· ++ "B")
  else if count ≥ 1000000 then (fmtScaled count 1000000).map (· ++ "M")
  else if count ≥ 1000 then (fmtScaled count 1000).map (· ++ "K")
  else some (toString count)

/-! ## MetricsCalculator: utils.calculate_growth (utils.py lines 51-57) -/

/-- `utils.calculate_growth`: percentage growth between two optional
counts; `None` when `previous` is `None` or `0`, or `current` is `None`.
The float result is modelled as an exact rational. -/
def calculate_growth (current previous : Option Int) : Option Rat :=
  match previous with
  | none => none
  | some p =>
    if p = 0 then none
    else
      match current with
      | none => none
      | some c => some (((c : Rat) - (p : Rat)) / (p : Rat) * 100)

/-! ## MetricsCalculator: utils.make_sparkline (utils.py lines 60-93) -/

/-- Default sparkline width (utils.py line 21). -/
def SPARKLINE_WIDTH : Nat := 7

/-- The ten intensity glyphs, low to high (utils.py line 24,
the string `" _.,:-=+*#"`). -/
def SPARKLINE_CHARS : List Char :=
  [' ', '_', '.', ',', ':', '-', '=', '+', '*', '#']

/-- The values a sparkline is drawn from: Python `values[-width:]`
followed by left-padding with `0` up to `width`.  (For `width = 0`,
Python's `values[-0:]` is the whole list; the padding step then never
applies.) -/
def consideredValues (values : List Int) (width : Nat) : List Int :=
  let vs0 := if width = 0 then values else values.drop (values.length - width)
  if vs0.length < width then List.replicate (width - vs0.length) 0 ++ vs0 else vs0

/-- `utils.make_sparkline`, producing the list of glyphs of the result
string.  `int(x)` on the nonnegative interpolation ratio is truncation;
the index is written here as integer division on the exact value, while
Python evaluates the ratio in binary64, which can land one glyph lower
at exact multiples (e.g. min 0, max 3, v 1).  No theorem below depends
on the indices of this branch: the glyph count per value, hence the
result length, is the same either way, and the all-equal branch is
exact. -/
def make_sparkline (values : List Int) (width : Nat := SPARKLINE_WIDTH) : List Char :=
  if values = [] then List.replicate width ' '
  else
    match consideredValues values width with
    | [] => []
    | v0 :: rest =>
      let minVal := rest.foldl min v0
      let maxVal := rest.foldl max v0
      if maxVal = minVal then
        List.replicate width (SPARKLINE_CHARS.getD (SPARKLINE_CHARS.length / 2) ' ')
      else
        (v0 :: rest).map fun v =>
          SPARKLINE_CHARS.getD
            (((v - minVal) * ((SPARKLINE_CHARS.length : Int) - 1) / (maxVal - minVal)).toNat) ' '

/-! ## ChartGeometry: reports.make_svg_pie_chart (reports.py lines 176-240) -/

/-- Maximum pie slices before grouping into "Other" (reports.py line 28). -/
def PIE_CHART_MAX_ITEMS : Nat := 6

/-- The "top items plus Other" bucketing step (reports.py lines 188-193),
parametrised by the `max_items` bound the code fixes to
`PIE_CHART_MAX_ITEMS`. -/
def pieBucket (maxItems : Nat) (data : List (String × Nat)) : List (String × Nat) :=
  if maxItems < data.length then
    let top := data.take (maxItems - 1)
    let otherTotal := ((data.drop (maxItems - 1)).map Prod.snd).sum
    if 0 < otherTotal then top ++ [("Other", otherTotal)] else top
  else data

/-- One rendered pie slice: the loop state of reports.py lines 205-237.
Each such slice contributes exactly one `<path>` arc and one legend
rect/text pair to the SVG output; the trigonometric arc endpoints
(floats) are determined by `startAngle` and `angle` and are not part of
any claim. -/
structure RenderedSlice where
  name : String
  value : Nat
  index : Nat
  pct : Rat
  startAngle : Rat
  angle : Rat
  largeArc : Bool
  deriving DecidableEq

/-- The slice-rendering loop (reports.py lines 205-237): entries with
value `0` are skipped (`continue`); otherwise the slice spans
`value / total * 360` degrees starting at the running angle. -/
def pieSlicesAux (total : Rat) : Nat → Rat → List (String × Nat) → List RenderedSlice
  | _, _, [] => []
  | i, start, (name, value) :: rest =>
    if value = 0 then pieSlicesAux total (i + 1) start rest
    else
      let pct : Rat := (value : Rat) / total
      let angle : Rat := pct * 360
      { name := name, value := value, index := i, pct := pct,
        startAngle := start, angle := angle,
        largeArc := decide (180 < angle) } :: pieSlicesAux total (i + 1) (start + angle) rest

/-- All slices rendered for a data series with positive total. -/
def pieRenderedSlices (data : List (String × Nat)) : List RenderedSlice :=
  pieSlicesAux (((data.map Prod.snd).sum : Nat) : Rat) 0 0 (pieBucket PIE_CHART_MAX_ITEMS data)

/-- Result of `make_svg_pie_chart`: `empty` models the `""` returned for
an empty series (line 181), `noData` models the
`"<p>No data available.</p>"` sentinel for a zero total (line 185), and
`chart` carries the rendered slices. -/
inductive PieResult where
  | empty : PieResult
  | noData : PieResult
  | chart : List RenderedSlice → PieResult

/-- `reports.make_svg_pie_chart` (lines 176-240). -/
def make_svg_pie_chart (data : List (String × Nat)) : PieResult :=
  if data = [] then .empty
  else
    if (data.map Prod.snd).sum = 0 then .noData
    else .chart (pieRenderedSlices data)

/-- The exact strings the source returns in the two non-chart cases; the
chart case's string (an `<svg>` document with float arc coordinates) is
not modelled. -/
def pieResultDoc : PieResult → Option String
  | .empty => some ""
  | .noData => some "<p>No data available.</p>"
  | .chart _ => none

/-! ## ChartGeometry: reports._make_svg_bar_chart (reports.py lines 243-284) -/

/-- Maximum of a list of counts, `0` on the empty list.  For the
non-empty lists the code applies it to, this is Python's `max`. -/
def listMax (l : List Nat) : Nat := l.foldr max 0

/-- `max(v for _, v in data) or 1` (reports.py line 248): Python's `or`
replaces a falsy (zero) maximum by 1, so the denominator below is never
zero. -/
def clampedMax (data : List (String × Nat)) : Nat :=
  if listMax (data.map Prod.snd) = 0 then 1 else listMax (data.map Prod.snd)

/-- Bar-chart area width: `chart_width - label_width - value_width`
(reports.py lines 251-254). -/
def BAR_AREA_WIDTH : Nat := 700 - 160 - 80

/-- One SVG element of the bar chart body: the label text, the bar
`<rect>` (carrying its computed width and hue), or the value text. -/
inductive BarElem where
  | label : Rat → Rat → String → BarElem
  | bar : Rat → Rat → Rat → Nat → BarElem
  | value : Rat → Rat → Nat → BarElem

/-- The three elements appended for bar `i` (reports.py lines 262-281);
`n` is the series length (used for the hue rotation). -/
def barRow (maxVal n i : Nat) (p : String × Nat) : List BarElem :=
  let y : Rat := (i : Rat) * (28 + 6) + 10
  let barWidth : Rat :=
    if 0 < maxVal then ((p.2 : Rat) / (maxVal : Rat)) * (BAR_AREA_WIDTH : Rat) else 0
  let hue : Nat := (i * 360 / n) % 360
  [ .label (160 - 8) (y + 28 / 2 + 4) p.1,
    .bar 160 y barWidth hue,
    .value ((160 : Rat) + (BAR_AREA_WIDTH : Rat) + 8) (y + 28 / 2 + 4) p.2 ]

/-- `reports._make_svg_bar_chart` (lines 243-284), as the list of body
elements (the `<svg>` wrapper and bar height constant carry no
claim-relevant data). -/
def _make_svg_bar_chart (data : List (String × Nat)) : List BarElem :=
  if data = [] then []
  else
    (data.enum.map fun ip => barRow (clampedMax data) data.length ip.1 ip.2).flatten

/-! ## ChartGeometry: reports._make_single_line_chart (reports.py lines 287-354) -/

/-- One SVG element of the single line chart: y-axis label (with the
truncated grid value), grid line, x-axis date label, or the polyline. -/
inductive LineElem where
  | yLabel : Rat → Int → LineElem
  | gridLine : Rat → LineElem
  | xLabel : Rat → String → LineElem
  | polyline : List (Rat × Rat) → LineElem

/-- The polyline points (reports.py lines 342-346):
`x = left + (i / max(1, len - 1)) * plot_width`,
`y = top + plot_height - (val / max_val) * plot_height` with
`max_val = max(values) or 1`. -/
def linePoints (values : List Nat) (chartWidth chartHeight : Nat) : List (Rat × Rat) :=
  let plotWidth : Rat := (chartWidth : Rat) - 80 - 20
  let plotHeight : Rat := (chartHeight : Rat) - 20 - 40
  let maxVal : Nat := if listMax values = 0 then 1 else listMax values
  values.enum.map fun iv =>
    ((80 : Rat) + ((iv.1 : Rat) / ((max 1 (values.length - 1) : Nat) : Rat)) * plotWidth,
     (20 : Rat) + plotHeight - ((iv.2 : Rat) / (maxVal : Rat)) * plotHeight)

/-- `reports._make_single_line_chart` (lines 287-354): fewer than 2
points yields the empty document; otherwise 5 y-axis labels with grid
lines, 3 x-axis labels (first, middle, last), and one polyline. -/
def _make_single_line_chart (dates : List String) (values : List Nat)
    (chartWidth : Nat := 600) (chartHeight : Nat := 200) : List LineElem :=
  if dates.length < 2 ∨ values.length < 2 then []
  else
    let plotWidth : Rat := (chartWidth : Rat) - 80 - 20
    let plotHeight : Rat := (chartHeight : Rat) - 20 - 40
    let maxVal : Nat := if listMax values = 0 then 1 else listMax values
    let yAxis := (List.range 5).map fun i =>
      [LineElem.yLabel ((20 : Rat) + (i : Rat) * plotHeight / 4)
        ⌊(maxVal : Rat) * (4 - (i : Rat)) / 4⌋,
       LineElem.gridLine ((20 : Rat) + (i : Rat) * plotHeight / 4)]
    let xLabels := ([0, dates.length / 2, dates.length - 1] : List Nat).map fun (idx : Nat) =>
      LineElem.xLabel ((80 : Rat) + ((idx : Rat) / ((dates.length - 1 : Nat) : Rat)) * plotWidth)
        (dates.getD idx "")
    yAxis.flatten ++ xLabels ++ [LineElem.polyline (linePoints values chartWidth chartHeight)]

/-- The point lists of the polylines among a list of chart elements. -/
def polylinesOf (l : List LineElem) : List (List (Rat × Rat)) :=
  l.filterMap fun e =>
    match e with
    | .polyline pts => some pts
    | _ => none

end Pkgdb

namespace Pkgdb

/-! ## Theorems for claims C1, C2, C9 -/

/-- C1: `calculate_growth` returns `None` exactly when `previous` is
`None` or zero or `current` is `None`; otherwise it returns
`(current - previous) / previous * 100`, with sign preserved (for a
positive baseline the result is negative iff `current < previous` and
positive iff `current > previous`); in particular
`growth(150,100) = 50` and `growth(50,100) = -50`. -/
theorem calculate_growth_spec :
    (∀ current previous : Option Int,
      calculate_growth current previous = none ↔
        previous = none ∨ previous = some 0 ∨ current = none)
    ∧ (∀ c p : Int, p ≠ 0 →
        calculate_growth (some c) (some p) = some (((c : Rat) - p) / p * 100))
    ∧ (∀ c p : Int, 0 < p →
        ∃ g, calculate_growth (some c) (some p) = some g
          ∧ (g < 0 ↔ c < p) ∧ (0 < g ↔ p < c))
    ∧ calculate_growth (some 150) (some 100) = some 50
    ∧ calculate_growth (some 50) (some 100) = some (-50) := by
  refine ⟨?_, ?_, ?_, ?_, ?_⟩
  · intro current previous
    cases previous with
    | none => simp [calculate_growth]
    | some p =>
      cases current with
      | none => simp [calculate_growth]
      | some c =>
        by_cases hp : p = 0 <;> simp [calculate_growth, hp]
  · intro c p hp
    simp [calculate_growth, hp]
  · intro c p hp
    have hp' : p ≠ 0 := by omega
    have hpr : (0 : Rat) < (p : Rat) := by exact_mod_cast hp
    refine ⟨((c : Rat) - p) / p * 100, by simp [calculate_growth, hp'], ?_, ?_⟩
    · rw [div_mul_eq_mul_div, div_neg_iff]
      constructor
      · rintro (⟨h1, h2⟩ | ⟨h1, h2⟩)
        · exact absurd hpr (by linarith)
        · have : (c : Rat) < (p : Rat) := by nlinarith
          exact_mod_cast this
      · intro h
        have : (c : Rat) < (p : Rat) := by exact_mod_cast h
        exact Or.inr ⟨by nlinarith, hpr⟩
    · rw [div_mul_eq_mul_div, lt_div_iff₀ hpr]
      constructor
      · intro h
        have : (p : Rat) < (c : Rat) := by nlinarith
        exact_mod_cast this
      · intro h
        have : (p : Rat) < (c : Rat) := by exact_mod_cast h
        nlinarith
  · have h : ((150 : Rat) - 100) / 100 * 100 = 50 := by norm_num
    simp [calculate_growth, h]
  · have h : ((50 : Rat) - 100) / 100 * 100 = -50 := by norm_num
    simp [calculate_growth, h]

/-- Witness for C1 at `current = 50`, `previous = 100`. -/
theorem calculate_growth_spec_witness :
    ∃ g, calculate_growth (some 50) (some 100) = some g
      ∧ (g < 0 ↔ (50 : Int) < 100) ∧ (0 < g ↔ (100 : Int) < 50) :=
  calculate_growth_spec.2.2.1 50 100 (by decide)

/-! Helper lemmas for the binary64 model behind `_format_count`. -/

/-- Bounds characterising `floorLog2Aux`: within the fuel range it is the
floor of the base-2 logarithm. -/
theorem floorLog2Aux_spec (fuel : Nat) :
    ∀ q : Nat, 1 ≤ q → q < 2 ^ fuel →
      2 ^ floorLog2Aux fuel q ≤ q ∧ q < 2 ^ (floorLog2Aux fuel q + 1) := by
  induction fuel with
  | zero =>
    intro q h1 h2
    simp only [pow_zero] at h2
    omega
  | succ fuel ih =>
    intro q h1 h2
    by_cases hq : 2 ≤ q
    · have hpow : 2 ^ (fuel + 1) = 2 ^ fuel * 2 := pow_succ 2 fuel
      obtain ⟨ha, hb⟩ := ih (q / 2) (by omega) (by omega)
      simp only [floorLog2Aux, if_pos hq]
      have hp1 : 2 ^ (floorLog2Aux fuel (q / 2) + 1)
          = 2 ^ floorLog2Aux fuel (q / 2) * 2 := pow_succ 2 _
      have hp2 : 2 ^ (floorLog2Aux fuel (q / 2) + 1 + 1)
          = 2 ^ (floorLog2Aux fuel (q / 2) + 1) * 2 := pow_succ 2 _
      omega
    · simp only [floorLog2Aux, if_neg hq]
      have hq1 : q = 1 := by omega
      subst hq1
      norm_num

/-- `floorLog2Aux` is below any exponent bounding its argument. -/
theorem floorLog2Aux_lt (fuel : Nat) :
    ∀ q k : Nat, 0 < k → q < 2 ^ k → floorLog2Aux fuel q < k := by
  induction fuel with
  | zero =>
    intro q k hk _
    simpa [floorLog2Aux] using hk
  | succ fuel ih =>
    intro q k hk hqk
    by_cases hq : 2 ≤ q
    · rcases k with _ | k'
      · omega
      · have hk' : 0 < k' := by
          rcases Nat.eq_zero_or_pos k' with h | h
          · subst h
            norm_num at hqk
            omega
          · exact h
        have hpow : 2 ^ (k' + 1) = 2 ^ k' * 2 := pow_succ 2 k'
        have hrec := ih (q / 2) k' hk' (by omega)
        simp only [floorLog2Aux, if_pos hq]
        omega
    · simp only [floorLog2Aux, if_neg hq]
      omega

/-- `floorLog2Aux` is above any exponent its argument dominates, up to
the fuel. -/
theorem floorLog2Aux_ge (fuel : Nat) :
    ∀ q k : Nat, 2 ^ k ≤ q → min k fuel ≤ floorLog2Aux fuel q := by
  induction fuel with
  | zero =>
    intro q k _
    simp only [floorLog2Aux]
    omega
  | succ fuel ih =>
    intro q k hkq
    rcases k with _ | k'
    · omega
    · have hq : 2 ≤ q := by
        have h2 : (2:Nat) ^ 1 ≤ 2 ^ (k' + 1) := Nat.pow_le_pow_right (by norm_num) (by omega)
        rw [pow_one] at h2
        omega
      have hpow : 2 ^ (k' + 1) = 2 ^ k' * 2 := pow_succ 2 k'
      have hrec := ih (q / 2) k' (by omega)
      simp only [floorLog2Aux, if_pos hq]
      omega

/-- `floorLog2` bounds within the fuel range. -/
theorem floorLog2_spec (q : Nat) (h1 : 1 ≤ q) (h2 : q < 2 ^ 1100) :
    2 ^ floorLog2 q ≤ q ∧ q < 2 ^ (floorLog2 q + 1) :=
  floorLog2Aux_spec 1100 q h1 h2

/-- `floorLog2` is below any exponent bounding its argument. -/
theorem floorLog2_lt (q k : Nat) (hk : 0 < k) (h : q < 2 ^ k) : floorLog2 q < k :=
  floorLog2Aux_lt 1100 q k hk h

/-- `floorLog2` is at least any dominated exponent up to the fuel. -/
theorem floorLog2_ge (q k : Nat) (h : 2 ^ k ≤ q) : min k 1100 ≤ floorLog2 q :=
  floorLog2Aux_ge 1100 q k h

/-- `rheDiv` of an exact multiple is the exact quotient. -/
theorem rheDiv_exact (b x : Nat) (hb : 0 < b) : rheDiv (b * x) b = x := by
  have h1 : b * x / b = x := Nat.mul_div_cancel_left x hb
  have h2 : b * x % b = 0 := Nat.mul_mod_right b x
  simp [rheDiv, h1, h2, hb]

/-- `rheDiv` at an exact half (even denominator) is the tie case: round
to the even neighbour. -/
theorem rheDiv_half (b x : Nat) (hb : 0 < b) (he : b % 2 = 0) :
    rheDiv (b * x + b / 2) b = if x % 2 = 0 then x else x + 1 := by
  have hlt : b / 2 < b := by omega
  have h1 : (b * x + b / 2) / b = x := by
    rw [Nat.mul_add_div hb, Nat.div_eq_of_lt hlt]
    omega
  have h2 : (b * x + b / 2) % b = b / 2 := by
    rw [Nat.mul_add_mod]
    exact Nat.mod_eq_of_lt hlt
  have h3 : ¬ 2 * (b / 2) < b := by omega
  have h4 : ¬ b < 2 * (b / 2) := by omega
  simp only [rheDiv]
  rw [h1, h2]
  simp [h3, h4]

/-- Binary64 division at a quarter tie `d + j/4` (`j = 1` or `3`): the
quotient is exactly representable, so the mantissa is exact. -/
theorem f64Div_quarter (c d u : Nat) (hc : 0 < c) (hd : 1 ≤ d) (hd51 : d < 2 ^ 51)
    (hu : u = 4 * d + 1 ∨ u = 4 * d + 3) :
    f64Div (c * u) (4 * c) = some (u * 2 ^ (50 - floorLog2 d), floorLog2 d) := by
  have hqd : c * u / (4 * c) = d := by
    rcases hu with h | h <;> subst h
    · rw [show c * (4 * d + 1) = 4 * c * d + c from by ring,
        Nat.mul_add_div (by omega), Nat.div_eq_of_lt (by omega)]
      omega
    · rw [show c * (4 * d + 3) = 4 * c * d + 3 * c from by ring,
        Nat.mul_add_div (by omega), Nat.div_eq_of_lt (by omega)]
      omega
  have h50 : floorLog2 d ≤ 50 := by
    have := floorLog2_lt d 51 (by norm_num) hd51
    omega
  obtain ⟨hsp1, hsp2⟩ := floorLog2_spec d hd (lt_of_lt_of_le hd51 (by norm_num))
  have hP : (0:Nat) < 2 ^ (50 - floorLog2 d) := pow_pos (by norm_num) _
  have hXP : (2:Nat) ^ (floorLog2 d + 1) * 2 ^ (50 - floorLog2 d) = 2 ^ 51 := by
    rw [← pow_add]
    congr 1
    omega
  have hub : u * 2 ^ (50 - floorLog2 d) < 2 ^ 53 := by
    have hu1 : u ≤ 4 * 2 ^ (floorLog2 d + 1) - 1 := by
      rcases hu with h | h <;> omega
    have hu2 : u * 2 ^ (50 - floorLog2 d)
        ≤ (4 * 2 ^ (floorLog2 d + 1) - 1) * 2 ^ (50 - floorLog2 d) :=
      Nat.mul_le_mul_right _ hu1
    have hu3 : (4 * 2 ^ (floorLog2 d + 1) - 1) * 2 ^ (50 - floorLog2 d)
        = 4 * (2 ^ (floorLog2 d + 1) * 2 ^ (50 - floorLog2 d))
          - 2 ^ (50 - floorLog2 d) := by
      rw [Nat.sub_mul, one_mul, mul_assoc]
    have hu4 : (4:Nat) * 2 ^ 51 = 2 ^ 53 := by norm_num
    rw [hu3, hXP, hu4] at hu2
    omega
  have hm : rheDiv (c * u * 2 ^ (52 - floorLog2 d)) (4 * c * 2 ^ (floorLog2 d - 52))
      = u * 2 ^ (50 - floorLog2 d) := by
    rw [show floorLog2 d - 52 = 0 from by omega, pow_zero, mul_one]
    rw [show c * u * 2 ^ (52 - floorLog2 d)
        = 4 * c * (u * 2 ^ (50 - floorLog2 d)) from by
      rw [show 52 - floorLog2 d = (50 - floorLog2 d) + 2 from by omega, pow_add]
      ring]
    exact rheDiv_exact (4 * c) (u * 2 ^ (50 - floorLog2 d)) (by omega)
  simp only [f64Div, hqd]
  rw [hm]
  rw [if_neg (show ¬ u * 2 ^ (50 - floorLog2 d) = 2 ^ 53 from by omega)]
  have hcond : ¬ 1024 ≤ ((u * 2 ^ (50 - floorLog2 d), floorLog2 d) : Nat × Nat).2 := by
    show ¬ 1024 ≤ floorLog2 d
    omega
  rw [if_neg hcond]

/-- One-decimal formatting of the exact quarter-tie mantissa: `d.25`
rounds down to the even `d.2`, `d.75` rounds up to the even `d.8`. -/
theorem fmt1f_quarter (e d j : Nat) (he : e ≤ 50) (hj : j = 1 ∨ j = 3) :
    fmt1f ((4 * d + j) * 2 ^ (50 - e)) e
      = toString d ++ "." ++ (if j = 1 then "2" else "8") := by
  have hbpos : (0:Nat) < 2 ^ (52 - e) := pow_pos (by norm_num) _
  have hbeven : (2:Nat) ^ (52 - e) % 2 = 0 := by
    rw [show 52 - e = (51 - e) + 1 from by omega, pow_succ]
    omega
  have hhalf : (2:Nat) ^ (52 - e) / 2 = 2 ^ (51 - e) := by
    rw [show 52 - e = (51 - e) + 1 from by omega, pow_succ]
    omega
  rcases hj with hj | hj <;> subst hj
  · have hsplit : (4 * d + 1) * 2 ^ (50 - e) * 10 * 2 ^ (e - 52)
        = 2 ^ (52 - e) * (10 * d + 2) + 2 ^ (52 - e) / 2 := by
      rw [show e - 52 = 0 from by omega, pow_zero, mul_one, hhalf,
        show 52 - e = (50 - e) + 2 from by omega,
        show 51 - e = (50 - e) + 1 from by omega, pow_add, pow_add]
      ring
    simp only [fmt1f]
    rw [hsplit, rheDiv_half (2 ^ (52 - e)) (10 * d + 2) hbpos hbeven,
      if_pos (show (10 * d + 2) % 2 = 0 from by omega)]
    rw [show (10 * d + 2) / 10 = d from by omega,
      show (10 * d + 2) % 10 = 2 from by omega]
    rfl
  · have hsplit : (4 * d + 3) * 2 ^ (50 - e) * 10 * 2 ^ (e - 52)
        = 2 ^ (52 - e) * (10 * d + 7) + 2 ^ (52 - e) / 2 := by
      rw [show e - 52 = 0 from by omega, pow_zero, mul_one, hhalf,
        show 52 - e = (50 - e) + 2 from by omega,
        show 51 - e = (50 - e) + 1 from by omega, pow_add, pow_add]
      ring
    simp only [fmt1f]
    rw [hsplit, rheDiv_half (2 ^ (52 - e)) (10 * d + 7) hbpos hbeven,
      if_neg (show ¬ (10 * d + 7) % 2 = 0 from by omega)]
    rw [show (10 * d + 7 + 1) / 10 = d from by omega,
      show (10 * d + 7 + 1) % 10 = 8 from by omega]
    rfl

/-- `fmtScaled` at a representable quarter tie rounds half to even. -/
theorem fmtScaled_quarter (c d j : Nat) (hc : 0 < c) (hd : 1 ≤ d) (hd51 : d < 2 ^ 51)
    (hj : j = 1 ∨ j = 3) :
    fmtScaled (c * (4 * d + j)) (4 * c)
      = some (toString d ++ "." ++ (if j = 1 then "2" else "8")) := by
  have h50 : floorLog2 d ≤ 50 := by
    have := floorLog2_lt d 51 (by norm_num) hd51
    omega
  have hu : 4 * d + j = 4 * d + 1 ∨ 4 * d + j = 4 * d + 3 := by
    rcases hj with h | h
    · subst h
      left
      rfl
    · subst h
      right
      rfl
  have hdiv := f64Div_quarter c d (4 * d + j) hc hd hd51 hu
  simp only [fmtScaled, hdiv, Option.map_some']
  rw [fmt1f_quarter (floorLog2 d) d j h50 hj]

/-- `fmt1f` always produces one decimal digit. -/
theorem fmt1f_shape (m E : Nat) :
    ∃ w dg : Nat, dg < 10 ∧ fmt1f m E = toString w ++ "." ++ toString dg :=
  ⟨rheDiv (m * 10 * 2 ^ (E - 52)) (2 ^ (52 - E)) / 10,
   rheDiv (m * 10 * 2 ^ (E - 52)) (2 ^ (52 - E)) % 10,
   Nat.mod_lt _ (by norm_num), rfl⟩

/-- `fmtScaled` on a quotient inside the binary64 range is defined and
shaped as digits, a point, and a single digit. -/
theorem fmtScaled_shape (n den : Nat) (hq : n / den < 2 ^ 1023) :
    ∃ w dg : Nat, dg < 10 ∧ fmtScaled n den = some (toString w ++ "." ++ toString dg) := by
  have hE : floorLog2 (n / den) < 1023 := floorLog2_lt (n / den) 1023 (by norm_num) hq
  simp only [fmtScaled, f64Div]
  by_cases hm : rheDiv (n * 2 ^ (52 - floorLog2 (n / den)))
      (den * 2 ^ (floorLog2 (n / den) - 52)) = 2 ^ 53
  · rw [if_pos hm]
    have hcond : ¬ 1024 ≤ (((2:Nat) ^ 52, floorLog2 (n / den) + 1) : Nat × Nat).2 := by
      show ¬ 1024 ≤ floorLog2 (n / den) + 1
      omega
    rw [if_neg hcond]
    obtain ⟨w, dg, hdg, hf⟩ := fmt1f_shape (2 ^ 52) (floorLog2 (n / den) + 1)
    exact ⟨w, dg, hdg, by simp only [Option.map_some']; rw [hf]⟩
  · rw [if_neg hm]
    have hcond : ¬ 1024 ≤ ((rheDiv (n * 2 ^ (52 - floorLog2 (n / den)))
        (den * 2 ^ (floorLog2 (n / den) - 52)), floorLog2 (n / den)) : Nat × Nat).2 := by
      show ¬ 1024 ≤ floorLog2 (n / den)
      omega
    rw [if_neg hcond]
    obtain ⟨w, dg, hdg, hf⟩ := fmt1f_shape (rheDiv (n * 2 ^ (52 - floorLog2 (n / den)))
      (den * 2 ^ (floorLog2 (n / den) - 52))) (floorLog2 (n / den))
    exact ⟨w, dg, hdg, by simp only [Option.map_some']; rw [hf]⟩

/-- C9 counterexample: at `10^400` the division `count / 1e9` exceeds
the binary64 range, so the program raises `OverflowError` (modelled
`none`) instead of producing a "B"-suffixed string. -/
theorem format_count_overflow : _format_count (10 ^ 400) = none := by
  have hge : (10:Nat) ^ 400 ≥ 1000000000 := by
    rw [show (1000000000 : Nat) = 10 ^ 9 from by norm_num]
    exact Nat.pow_le_pow_right (by norm_num) (by norm_num)
  have hq : (10:Nat) ^ 400 / 1000000000 = 10 ^ 391 := by
    rw [show (1000000000 : Nat) = 10 ^ 9 from by norm_num,
      Nat.pow_div (by norm_num) (by norm_num)]
  have hbig : (2:Nat) ^ 1024 ≤ 10 ^ 391 := by
    calc (2:Nat) ^ 1024 ≤ 2 ^ 1173 := Nat.pow_le_pow_right (by norm_num) (by norm_num)
      _ = 8 ^ 391 := by rw [show (8:Nat) = 2 ^ 3 from by norm_num, ← pow_mul]
      _ ≤ 10 ^ 391 := Nat.pow_le_pow_left (by norm_num) _
  have hE : 1024 ≤ floorLog2 (10 ^ 391) := by
    have := floorLog2_ge (10 ^ 391) 1024 hbig
    omega
  simp only [_format_count]
  rw [if_pos hge]
  simp only [fmtScaled, f64Div, hq]
  by_cases hm : rheDiv (10 ^ 400 * 2 ^ (52 - floorLog2 (10 ^ 391)))
      (1000000000 * 2 ^ (floorLog2 (10 ^ 391) - 52)) = 2 ^ 53
  · rw [if_pos hm]
    have hcond : 1024 ≤ (((2:Nat) ^ 52, floorLog2 (10 ^ 391) + 1) : Nat × Nat).2 := by
      show 1024 ≤ floorLog2 (10 ^ 391) + 1
      omega
    rw [if_pos hcond]
    rfl
  · rw [if_neg hm]
    have hcond : 1024 ≤ ((rheDiv (10 ^ 400 * 2 ^ (52 - floorLog2 (10 ^ 391)))
        (1000000000 * 2 ^ (floorLog2 (10 ^ 391) - 52)), floorLog2 (10 ^ 391)) : Nat × Nat).2 := by
      show 1024 ≤ floorLog2 (10 ^ 391)
      exact hE
    rw [if_pos hcond]
    rfl

/-- C9 amended: for counts whose scaled quotient stays inside the
binary64 range (automatic below 1e9; `n ≤ 10^316` suffices in the B
band), `_format_count` applies the 1e9/1e6/1e3 thresholds to produce
B/M/K suffixes with exactly one decimal digit, and returns the plain
integer string below 1000; the documented particulars hold, and 1050
formats as "1.1K" (the binary64 value of 1.05 lies above the tie). -/
theorem format_count_spec :
    _format_count 0 = some "0"
    ∧ _format_count 999 = some "999"
    ∧ _format_count 1000 = some "1.0K"
    ∧ _format_count 1050 = some "1.1K"
    ∧ _format_count 1234567 = some "1.2M"
    ∧ (∀ n : Nat, n < 1000 → _format_count n = some (toString n))
    ∧ (∀ n : Nat, 1000 ≤ n → n < 1000000 → ∃ w dg : Nat, dg < 10
        ∧ _format_count n = some (toString w ++ "." ++ toString dg ++ "K"))
    ∧ (∀ n : Nat, 1000000 ≤ n → n < 1000000000 → ∃ w dg : Nat, dg < 10
        ∧ _format_count n = some (toString w ++ "." ++ toString dg ++ "M"))
    ∧ (∀ n : Nat, 1000000000 ≤ n → n ≤ 10 ^ 316 → ∃ w dg : Nat, dg < 10
        ∧ _format_count n = some (toString w ++ "." ++ toString dg ++ "B")) := by
  refine ⟨by decide, by decide, by decide, by decide, by decide, ?_, ?_, ?_, ?_⟩
  · intro n h
    have h1 : ¬ n ≥ 1000000000 := by omega
    have h2 : ¬ n ≥ 1000000 := by omega
    have h3 : ¬ n ≥ 1000 := by omega
    simp [_format_count, h1, h2, h3]
  · intro n h h'
    have h1 : ¬ n ≥ 1000000000 := by omega
    have h2 : ¬ n ≥ 1000000 := by omega
    obtain ⟨w, dg, hdg, hf⟩ := fmtScaled_shape n 1000 (by
      have hds : n / 1000 ≤ n := Nat.div_le_self n 1000
      have hlt : (1000000 : Nat) ≤ 2 ^ 1023 := by norm_num
      omega)
    refine ⟨w, dg, hdg, ?_⟩
    simp only [_format_count]
    rw [if_neg h1, if_neg h2, if_pos (show n ≥ 1000 from h), hf]
    rfl
  · intro n h h'
    have h1 : ¬ n ≥ 1000000000 := by omega
    obtain ⟨w, dg, hdg, hf⟩ := fmtScaled_shape n 1000000 (by
      have hds : n / 1000000 ≤ n := Nat.div_le_self n 1000000
      have hlt : (1000000000 : Nat) ≤ 2 ^ 1023 := by norm_num
      omega)
    refine ⟨w, dg, hdg, ?_⟩
    simp only [_format_count]
    rw [if_neg h1, if_pos (show n ≥ 1000000 from h), hf]
    rfl
  · intro n h h'
    obtain ⟨w, dg, hdg, hf⟩ := fmtScaled_shape n 1000000000 (by
      have hdd : n / 1000000000 ≤ 10 ^ 316 / 1000000000 := Nat.div_le_div_right h'
      have hpd : (10:Nat) ^ 316 / 1000000000 = 10 ^ 307 := by
        rw [show (1000000000 : Nat) = 10 ^ 9 from by norm_num,
          Nat.pow_div (by norm_num) (by norm_num)]
      have hlt : (10:Nat) ^ 307 < 2 ^ 1023 := by norm_num
      omega)
    refine ⟨w, dg, hdg, ?_⟩
    simp only [_format_count]
    rw [if_pos (show n ≥ 1000000000 from h), hf]
    rfl

/-- Witness for the amended C9 at `n = 1234567` (the M band). -/
theorem format_count_spec_witness :
    ∃ w dg : Nat, dg < 10
      ∧ _format_count 1234567 = some (toString w ++ "." ++ toString dg ++ "M") :=
  format_count_spec.2.2.2.2.2.2.2.1 1234567 (by decide) (by decide)

/-- C2 counterexample: at the exact `.x5` tie 1,250,000 (scaled value
1.25, exactly representable in binary64) the code rounds half to even,
rendering `"1.2M"`, not the claimed round-half-up `"1.3M"`. -/
theorem format_count_tie_not_half_up :
    _format_count 1250000 = some "1.2M" ∧ _format_count 1250000 ≠ some "1.3M" := by
  constructor
  · decide
  · decide

/-- C2 amended: at every count whose scaled value falls exactly on a
`.x5` tie exactly representable in binary64 — precisely the quarter
ties, hundredths 25 or 75 (other `.x5` hundredths are not dyadic), in
each of the K, M and B bands — `_format_count` rounds half to even:
`.25` down to `.2`, `.75` up to `.8`; in particular 1,250,000 renders
as `"1.2M"`.  In the B band `d < 2^51` delimits the representable
ties. -/
theorem format_count_tie_half_even (d : Nat) (h1 : 1 ≤ d) :
    (d ≤ 999 →
      _format_count (1000 * d + 250) = some (toString d ++ ".2K")
      ∧ _format_count (1000 * d + 750) = some (toString d ++ ".8K"))
    ∧ (d ≤ 999 →
      _format_count (1000000 * d + 250000) = some (toString d ++ ".2M")
      ∧ _format_count (1000000 * d + 750000) = some (toString d ++ ".8M"))
    ∧ (d < 2 ^ 51 →
      _format_count (1000000000 * d + 250000000) = some (toString d ++ ".2B")
      ∧ _format_count (1000000000 * d + 750000000) = some (toString d ++ ".8B")) := by
  refine ⟨fun h999 => ⟨?_, ?_⟩, fun h999 => ⟨?_, ?_⟩, fun h51 => ⟨?_, ?_⟩⟩
  · have hb1 : ¬ 1000 * d + 250 ≥ 1000000000 := by omega
    have hb2 : ¬ 1000 * d + 250 ≥ 1000000 := by omega
    have hb3 : 1000 * d + 250 ≥ 1000 := by omega
    simp only [_format_count]
    rw [if_neg hb1, if_neg hb2, if_pos hb3]
    rw [show (1000:Nat) * d + 250 = 250 * (4 * d + 1) from by ring,
      show (1000:Nat) = 4 * 250 from by norm_num,
      fmtScaled_quarter 250 d 1 (by norm_num) h1
        (lt_of_le_of_lt h999 (by norm_num)) (Or.inl rfl)]
    simp only [Option.map_some', String.append_assoc]
    rfl
  · have hb1 : ¬ 1000 * d + 750 ≥ 1000000000 := by omega
    have hb2 : ¬ 1000 * d + 750 ≥ 1000000 := by omega
    have hb3 : 1000 * d + 750 ≥ 1000 := by omega
    simp only [_format_count]
    rw [if_neg hb1, if_neg hb2, if_pos hb3]
    rw [show (1000:Nat) * d + 750 = 250 * (4 * d + 3) from by ring,
      show (1000:Nat) = 4 * 250 from by norm_num,
      fmtScaled_quarter 250 d 3 (by norm_num) h1
        (lt_of_le_of_lt h999 (by norm_num)) (Or.inr rfl)]
    simp only [Option.map_some', String.append_assoc]
    rfl
  · have hb1 : ¬ 1000000 * d + 250000 ≥ 1000000000 := by omega
    have hb2 : 1000000 * d + 250000 ≥ 1000000 := by omega
    simp only [_format_count]
    rw [if_neg hb1, if_pos hb2]
    rw [show (1000000:Nat) * d + 250000 = 250000 * (4 * d + 1) from by ring,
      show (1000000:Nat) = 4 * 250000 from by norm_num,
      fmtScaled_quarter 250000 d 1 (by norm_num) h1
        (lt_of_le_of_lt h999 (by norm_num)) (Or.inl rfl)]
    simp only [Option.map_some', String.append_assoc]
    rfl
  · have hb1 : ¬ 1000000 * d + 750000 ≥ 1000000000 := by omega
    have hb2 : 1000000 * d + 750000 ≥ 1000000 := by omega
    simp only [_format_count]
    rw [if_neg hb1, if_pos hb2]
    rw [show (1000000:Nat) * d + 750000 = 250000 * (4 * d + 3) from by ring,
      show (1000000:Nat) = 4 * 250000 from by norm_num,
      fmtScaled_quarter 250000 d 3 (by norm_num) h1
        (lt_of_le_of_lt h999 (by norm_num)) (Or.inr rfl)]
    simp only [Option.map_some', String.append_assoc]
    rfl
  · have hb1 : 1000000000 * d + 250000000 ≥ 1000000000 := by omega
    simp only [_format_count]
    rw [if_pos hb1]
    rw [show (1000000000:Nat) * d + 250000000 = 250000000 * (4 * d + 1) from by ring,
      show (1000000000:Nat) = 4 * 250000000 from by norm_num,
      fmtScaled_quarter 250000000 d 1 (by norm_num) h1 h51 (Or.inl rfl)]
    simp only [Option.map_some', String.append_assoc]
    rfl
  · have hb1 : 1000000000 * d + 750000000 ≥ 1000000000 := by omega
    simp only [_format_count]
    rw [if_pos hb1]
    rw [show (1000000000:Nat) * d + 750000000 = 250000000 * (4 * d + 3) from by ring,
      show (1000000000:Nat) = 4 * 250000000 from by norm_num,
      fmtScaled_quarter 250000000 d 3 (by norm_num) h1 h51 (Or.inr rfl)]
    simp only [Option.map_some', String.append_assoc]
    rfl

/-- Witness for the amended C2 at `d = 12` in the M band (inputs
12,250,000 and 12,750,000). -/
theorem format_count_tie_half_even_witness :
    _format_count (1000000 * 12 + 250000) = some (toString 12 ++ ".2M")
    ∧ _format_count (1000000 * 12 + 750000) = some (toString 12 ++ ".8M") :=
  (format_count_tie_half_even 12 (by decide)).2.1 (by decide)

/-! ## Theorems for claim C6 (make_sparkline) -/

/-- For a positive width the considered values always number exactly
`width` (truncation to the last `width`, or zero-padding up to it). -/
theorem consideredValues_length (values : List Int) (width : Nat) (hw : 0 < width) :
    (consideredValues values width).length = width := by
  unfold consideredValues
  simp only [if_neg (by omega : ¬ width = 0)]
  by_cases h : (values.drop (values.length - width)).length < width
  · simp only [if_pos h, List.length_append, List.length_replicate]
    omega
  · simp only [if_neg h]
    simp only [List.length_drop] at h ⊢
    omega

/-- Folding `min` over a list of copies of the start value is the start
value. -/
theorem foldl_min_all_eq (l : List Int) (a : Int) (h : ∀ b ∈ l, b = a) :
    l.foldl min a = a := by
  induction l with
  | nil => rfl
  | cons x xs ih =>
    have hx : x = a := h x (by simp)
    simp only [List.foldl_cons, hx, min_self]
    exact ih fun b hb => h b (by simp [hb])

/-- Folding `max` over a list of copies of the start value is the start
value. -/
theorem foldl_max_all_eq (l : List Int) (a : Int) (h : ∀ b ∈ l, b = a) :
    l.foldl max a = a := by
  induction l with
  | nil => rfl
  | cons x xs ih =>
    have hx : x = a := h x (by simp)
    simp only [List.foldl_cons, hx, max_self]
    exact ih fun b hb => h b (by simp [hb])

/-- C6: for a non-empty series and positive width, the sparkline has
exactly `width` glyphs, drawn from the last `width` values (left-padded
with 0 when fewer); when the considered values are all equal every glyph
is the one at the middle index `10 / 2 = 5` of the glyph set; in
particular `make_sparkline [5,5,5] 3` is the glyph `'-'` three times. -/
theorem make_sparkline_spec (values : List Int) (width : Nat)
    (hv : values ≠ []) (hw : 0 < width) :
    (make_sparkline values width).length = width
    ∧ (width ≤ values.length →
        consideredValues values width = values.drop (values.length - width))
    ∧ (values.length < width →
        consideredValues values width
          = List.replicate (width - values.length) 0 ++ values)
    ∧ ((∀ a ∈ consideredValues values width, ∀ b ∈ consideredValues values width, a = b) →
        make_sparkline values width
          = List.replicate width (SPARKLINE_CHARS.getD (SPARKLINE_CHARS.length / 2) ' '))
    ∧ SPARKLINE_CHARS.length / 2 = 5
    ∧ make_sparkline [5, 5, 5] 3 = ['-', '-', '-'] := by
  have hlen : (consideredValues values width).length = width :=
    consideredValues_length values width hw
  have hne : consideredValues values width ≠ [] := by
    intro h
    rw [h] at hlen
    simp at hlen
    omega
  obtain ⟨v0, rest, hcv⟩ := List.exists_cons_of_ne_nil hne
  refine ⟨?_, ?_, ?_, ?_, by decide, by decide⟩
  · rw [hcv] at hlen
    by_cases heq : rest.foldl max v0 = rest.foldl min v0
    · simp [make_sparkline, hv, hcv, heq]
    · simp only [make_sparkline, if_neg hv, hcv, if_neg heq, List.length_map]
      exact hlen
  · intro h
    unfold consideredValues
    have h1 : ¬ width = 0 := by omega
    have h2 : ¬ (values.drop (values.length - width)).length < width := by
      simp only [List.length_drop]
      omega
    simp [h1, h2]
    omega
  · intro h
    unfold consideredValues
    have h1 : ¬ width = 0 := by omega
    have h0 : values.length - width = 0 := by omega
    have h2 : (values.drop (values.length - width)).length < width := by
      simp only [List.length_drop]
      omega
    simp [h1, h2, h0]
    omega
  · intro h
    rw [hcv] at h
    have hall : ∀ b ∈ rest, b = v0 :=
      fun b hb => h b (by simp [hb]) v0 (by simp)
    have hmin : rest.foldl min v0 = v0 := foldl_min_all_eq rest v0 hall
    have hmax : rest.foldl max v0 = v0 := foldl_max_all_eq rest v0 hall
    simp [make_sparkline, hv, hcv, hmin, hmax]

/-- Witness for C6 at `values = [5,5,5]`, `width = 3`. -/
theorem make_sparkline_spec_witness :
    (make_sparkline [5, 5, 5] 3).length = 3 :=
  (make_sparkline_spec [5, 5, 5] 3 (by decide) (by decide)).1

/-! ## Helper lemmas for the pie-chart claims -/

/-- The rendered slices are exactly the bucketed entries with nonzero
value, in order, as the loop's `continue` skips value 0. -/
theorem pieSlicesAux_map_nameValue (total : Rat) :
    ∀ (l : List (String × Nat)) (i : Nat) (st : Rat),
      (pieSlicesAux total i st l).map (fun s => (s.name, s.value))
        = l.filter (fun p => p.2 != 0) := by
  intro l
  induction l with
  | nil => intro i st; simp [pieSlicesAux]
  | cons p rest ih =>
    intro i st
    obtain ⟨name, value⟩ := p
    by_cases hv : value = 0
    · simp [pieSlicesAux, hv, ih]
    · simp [pieSlicesAux, hv, ih]

/-- The rendered slice angles over a sublist sum to the sublist's share
of 360 degrees: value sums scale linearly into angles. -/
theorem pieSlicesAux_angle_sum (total : Rat) :
    ∀ (l : List (String × Nat)) (i : Nat) (st : Rat),
      ((pieSlicesAux total i st l).map RenderedSlice.angle).sum
        = (((l.map Prod.snd).sum : Nat) : Rat) / total * 360 := by
  intro l
  induction l with
  | nil => intro i st; simp [pieSlicesAux]
  | cons p rest ih =>
    intro i st
    obtain ⟨name, value⟩ := p
    by_cases hv : value = 0
    · simp [pieSlicesAux, hv, ih]
    · simp only [pieSlicesAux, if_neg hv, List.map_cons, List.sum_cons, ih,
        List.map_cons, List.sum_cons]
      push_cast
      ring

/-- Every rendered slice has a nonzero value, its angle is its share of
360 degrees, and its large-arc flag is set exactly when the angle
exceeds 180 degrees. -/
theorem pieSlicesAux_mem (total : Rat) :
    ∀ (l : List (String × Nat)) (i : Nat) (st : Rat) (s : RenderedSlice),
      s ∈ pieSlicesAux total i st l →
        s.angle = (s.value : Rat) / total * 360
        ∧ s.largeArc = decide (180 < s.angle)
        ∧ 0 < s.value := by
  intro l
  induction l with
  | nil => intro i st s hs; simp [pieSlicesAux] at hs
  | cons p rest ih =>
    intro i st s hs
    obtain ⟨name, value⟩ := p
    by_cases hv : value = 0
    · rw [pieSlicesAux, if_pos hv] at hs
      exact ih _ _ _ hs
    · rw [pieSlicesAux, if_neg hv] at hs
      rcases List.mem_cons.mp hs with h | h
      · subst h
        refine ⟨rfl, rfl, ?_⟩
        show 0 < value
        omega
      · exact ih _ _ _ h

/-- The first rendered slice (if any) starts at the running angle the
loop was entered with. -/
theorem pieSlicesAux_head_start (total : Rat) :
    ∀ (l : List (String × Nat)) (i : Nat) (st : Rat) (s : RenderedSlice),
      (pieSlicesAux total i st l).head? = some s → s.startAngle = st := by
  intro l
  induction l with
  | nil => intro i st s hs; simp [pieSlicesAux] at hs
  | cons p rest ih =>
    intro i st s hs
    obtain ⟨name, value⟩ := p
    by_cases hv : value = 0
    · rw [pieSlicesAux, if_pos hv] at hs
      exact ih _ _ _ hs
    · rw [pieSlicesAux, if_neg hv] at hs
      simp only [List.head?_cons, Option.some.injEq] at hs
      subst hs
      rfl

/-- Consecutive rendered slices are laid out cumulatively: each one
starts where the previous one ends. -/
theorem pieSlicesAux_chain (total : Rat) :
    ∀ (l : List (String × Nat)) (i : Nat) (st : Rat),
      List.Chain' (fun a b => b.startAngle = a.startAngle + a.angle)
        (pieSlicesAux total i st l) := by
  intro l
  induction l with
  | nil => intro i st; simp [pieSlicesAux]
  | cons p rest ih =>
    intro i st
    obtain ⟨name, value⟩ := p
    by_cases hv : value = 0
    · rw [pieSlicesAux, if_pos hv]
      exact ih _ _
    · rw [pieSlicesAux, if_neg hv]
      refine List.chain'_cons'.mpr ⟨?_, ih _ _⟩
      intro y hy
      have := pieSlicesAux_head_start total rest (i + 1)
        (st + (value : Rat) / total * 360) y hy
      simpa using this

/-- Bucketing into "Other" preserves the total value. -/
theorem pieBucket_sum (maxItems : Nat) (data : List (String × Nat)) :
    ((pieBucket maxItems data).map Prod.snd).sum = (data.map Prod.snd).sum := by
  have hsplit : (data.map Prod.snd).sum
      = ((data.take (maxItems - 1)).map Prod.snd).sum
        + ((data.drop (maxItems - 1)).map Prod.snd).sum := by
    conv_rhs => rw [← List.sum_append, ← List.map_append, List.take_append_drop]
  simp only [pieBucket]
  by_cases hlen : maxItems < data.length
  · rw [if_pos hlen]
    by_cases hot : 0 < ((data.drop (maxItems - 1)).map Prod.snd).sum
    · rw [if_pos hot, List.map_append, List.sum_append, hsplit]
      simp
    · rw [if_neg hot]
      omega
  · rw [if_neg hlen]

/-- For a positive total the pie chart is the rendered-slices chart. -/
theorem make_svg_pie_chart_pos_eq (data : List (String × Nat))
    (h : 0 < (data.map Prod.snd).sum) :
    make_svg_pie_chart data = PieResult.chart (pieRenderedSlices data) := by
  have hne : data ≠ [] := by
    intro he
    subst he
    simp at h
  have hs : ¬ (data.map Prod.snd).sum = 0 := by omega
  simp [make_svg_pie_chart, hne, hs]

/-! ## Theorems for claims C3, C4, C5, C10 -/

/-- C3 counterexample: the empty series — whose values sum to zero — is
returned as the empty string `""` (the `if not data: return ""` at
reports.py line 181, before the total is even computed), which is a
different result from the `"<p>No data available.</p>"` sentinel that
non-empty zero-total series receive at line 185.  So the claim's
"returns the sentinel `no data` result" fails at the concrete input
`[]`. -/
theorem pie_chart_empty_vs_sentinel :
    make_svg_pie_chart [] = PieResult.empty
    ∧ pieResultDoc (make_svg_pie_chart []) = some ""
    ∧ make_svg_pie_chart [("a", 0)] = PieResult.noData
    ∧ pieResultDoc (make_svg_pie_chart [("a", 0)]) = some "<p>No data available.</p>"
    ∧ pieResultDoc (make_svg_pie_chart [])
        ≠ pieResultDoc (make_svg_pie_chart [("a", 0)])
    ∧ ("" : String) ≠ "<p>No data available.</p>" :=
  ⟨rfl, rfl, rfl, rfl, by decide, by decide⟩

/-- C3 amended: a zero-total series never yields a chart — the result is
always one of the two defined non-chart outputs, so no exception is
possible on this branch (the embedding is a total function with no
exceptional case): the empty series yields the empty document `""`
(line 181) and a non-empty zero-total series yields the `"no data"`
sentinel `"<p>No data available.</p>"` (line 185). -/
theorem pie_chart_zero_total (data : List (String × Nat))
    (h : (data.map Prod.snd).sum = 0) :
    make_svg_pie_chart data = (if data = [] then PieResult.empty else PieResult.noData)
    ∧ (make_svg_pie_chart data = PieResult.empty
        ∨ make_svg_pie_chart data = PieResult.noData)
    ∧ (∀ slices, make_svg_pie_chart data ≠ PieResult.chart slices)
    ∧ pieResultDoc (make_svg_pie_chart data)
        = some (if data = [] then "" else "<p>No data available.</p>") := by
  by_cases hne : data = []
  · subst hne
    exact ⟨rfl, Or.inl rfl, fun slices => by simp [make_svg_pie_chart], rfl⟩
  · refine ⟨?_, ?_, ?_, ?_⟩
    · simp [make_svg_pie_chart, hne, h]
    · right
      simp [make_svg_pie_chart, hne, h]
    · intro slices
      simp [make_svg_pie_chart, hne, h]
    · simp [make_svg_pie_chart, hne, h, pieResultDoc]

/-- Witness for the amended C3 at the non-empty zero-total series
`[("a", 0)]`: it produces the `"no data"` sentinel document and no
chart. -/
theorem pie_chart_zero_total_witness :
    (([("a", 0)] : List (String × Nat)).map Prod.snd).sum = 0
    ∧ pieResultDoc (make_svg_pie_chart [("a", 0)])
        = some (if ([("a", 0)] : List (String × Nat)) = [] then ""
            else "<p>No data available.</p>")
    ∧ (∀ slices, make_svg_pie_chart [("a", 0)] ≠ PieResult.chart slices) :=
  ⟨by decide, (pie_chart_zero_total [("a", 0)] (by decide)).2.2.2,
   (pie_chart_zero_total [("a", 0)] (by decide)).2.2.1⟩

/-- C4: with more than `max_items` entries, all of positive value, the
bucketing keeps exactly the first `max_items - 1` entries in order and
appends a single "Other" slice holding the sum of the rest, for exactly
`max_items` entries; "Other" is only appended when that remainder is
positive; with the code's bound of 6 all of them are rendered. -/
theorem pieBucket_other (maxItems : Nat) (data : List (String × Nat))
    (h1 : 1 ≤ maxItems) (h2 : maxItems < data.length)
    (h3 : ∀ p ∈ data, 0 < p.2) :
    pieBucket maxItems data
      = data.take (maxItems - 1)
        ++ [("Other", ((data.drop (maxItems - 1)).map Prod.snd).sum)]
    ∧ (pieBucket maxItems data).length = maxItems
    ∧ (∀ data2 : List (String × Nat), maxItems < data2.length →
        ((data2.drop (maxItems - 1)).map Prod.snd).sum = 0 →
        pieBucket maxItems data2 = data2.take (maxItems - 1))
    ∧ (maxItems = PIE_CHART_MAX_ITEMS →
        (pieRenderedSlices data).length = PIE_CHART_MAX_ITEMS) := by
  have hdrop : ((data.drop (maxItems - 1)).map Prod.snd) ≠ [] := by
    intro he
    have := congrArg List.length he
    simp only [List.length_map, List.length_drop, List.length_nil] at this
    omega
  have hpos : 0 < ((data.drop (maxItems - 1)).map Prod.snd).sum := by
    apply List.sum_pos
    · intro x hx
      obtain ⟨p, hp, hpx⟩ := List.mem_map.mp hx
      subst hpx
      exact h3 p (List.drop_subset _ _ hp)
    · exact hdrop
  have hmain : pieBucket maxItems data
      = data.take (maxItems - 1)
        ++ [("Other", ((data.drop (maxItems - 1)).map Prod.snd).sum)] := by
    simp only [pieBucket]
    rw [if_pos h2, if_pos hpos]
  refine ⟨hmain, ?_, ?_, ?_⟩
  · rw [hmain]
    simp only [List.length_append, List.length_take, List.length_cons, List.length_nil]
    omega
  · intro data2 h2' hzero
    have hzero' : ¬ 0 < ((data2.drop (maxItems - 1)).map Prod.snd).sum := by omega
    simp only [pieBucket]
    rw [if_pos h2', if_neg hzero']
  · intro hm
    subst hm
    have hfilter : (pieBucket PIE_CHART_MAX_ITEMS data).filter (fun p => p.2 != 0)
        = pieBucket PIE_CHART_MAX_ITEMS data := by
      apply List.filter_eq_self.mpr
      intro p hp
      rw [hmain] at hp
      rcases List.mem_append.mp hp with hmem | hmem
      · have hppos : 0 < p.2 := h3 p (List.take_subset _ _ hmem)
        simp only [bne_iff_ne, ne_eq]
        omega
      · simp only [List.mem_singleton] at hmem
        subst hmem
        simp only [bne_iff_ne, ne_eq]
        omega
    have hmap := pieSlicesAux_map_nameValue
      (((data.map Prod.snd).sum : Nat) : Rat) (pieBucket PIE_CHART_MAX_ITEMS data) 0 0
    calc (pieRenderedSlices data).length
        = ((pieRenderedSlices data).map (fun s => (s.name, s.value))).length := by
          rw [List.length_map]
      _ = ((pieBucket PIE_CHART_MAX_ITEMS data).filter (fun p => p.2 != 0)).length := by
          unfold pieRenderedSlices
          rw [hmap]
      _ = (pieBucket PIE_CHART_MAX_ITEMS data).length := by rw [hfilter]
      _ = PIE_CHART_MAX_ITEMS := by
          rw [hmain]
          simp only [List.length_append, List.length_take, List.length_cons,
            List.length_nil]
          omega

/-- Witness for C4 with `max_items = 3` on 5 positive entries. -/
theorem pieBucket_other_witness :
    pieBucket 3 [("a", 1), ("b", 2), ("c", 3), ("d", 4), ("e", 5)]
      = [("a", 1), ("b", 2), ("c", 3), ("d", 4), ("e", 5)].take (3 - 1)
        ++ [("Other", (([("a", 1), ("b", 2), ("c", 3), ("d", 4), ("e", 5)].drop (3 - 1)).map
              Prod.snd).sum)] :=
  (pieBucket_other 3 [("a", 1), ("b", 2), ("c", 3), ("d", 4), ("e", 5)]
    (by decide) (by decide) (by decide)).1

/-- C5: for a positive total, the rendered slice angles (each spanning
`value / total * 360` degrees) sum to exactly 360 degrees; the large-arc
flag is set exactly when a slice's angle exceeds 180 degrees; the layout
is cumulative, starting from angle 0. -/
theorem pie_chart_angles (data : List (String × Nat))
    (h : 0 < (data.map Prod.snd).sum) :
    make_svg_pie_chart data = PieResult.chart (pieRenderedSlices data)
    ∧ ((pieRenderedSlices data).map RenderedSlice.angle).sum = 360
    ∧ (∀ s ∈ pieRenderedSlices data,
        s.angle = (s.value : Rat) / (((data.map Prod.snd).sum : Nat) : Rat) * 360
        ∧ s.largeArc = decide (180 < s.angle))
    ∧ (∀ s, (pieRenderedSlices data).head? = some s → s.startAngle = 0)
    ∧ List.Chain' (fun a b => b.startAngle = a.startAngle + a.angle)
        (pieRenderedSlices data) := by
  have htot : (((data.map Prod.snd).sum : Nat) : Rat) ≠ 0 := by
    have : (0 : Nat) < (data.map Prod.snd).sum := h
    positivity
  refine ⟨make_svg_pie_chart_pos_eq data h, ?_, ?_, ?_, ?_⟩
  · rw [pieRenderedSlices, pieSlicesAux_angle_sum, pieBucket_sum, div_self htot, one_mul]
  · intro s hs
    have := pieSlicesAux_mem (((data.map Prod.snd).sum : Nat) : Rat) _ _ _ s hs
    exact ⟨this.1, this.2.1⟩
  · intro s hs
    exact pieSlicesAux_head_start _ _ _ _ s hs
  · exact pieSlicesAux_chain _ _ _ _

/-- Witness for C5 at `[("a", 1), ("b", 3)]`. -/
theorem pie_chart_angles_witness :
    ((pieRenderedSlices [("a", 1), ("b", 3)]).map RenderedSlice.angle).sum = 360 :=
  (pie_chart_angles [("a", 1), ("b", 3)] (by decide)).2.1

/-- C10: for a positive total, the rendered slices are exactly the
bucketed entries with nonzero value, in order — entries of value 0 are
skipped and contribute neither an arc nor a legend entry (each rendered
slice produces exactly one of each), and every rendered slice has a
strictly positive value. -/
theorem pie_chart_skips_zero (data : List (String × Nat))
    (h : 0 < (data.map Prod.snd).sum) :
    make_svg_pie_chart data = PieResult.chart (pieRenderedSlices data)
    ∧ (pieRenderedSlices data).map (fun s => (s.name, s.value))
        = (pieBucket PIE_CHART_MAX_ITEMS data).filter (fun p => p.2 != 0)
    ∧ (∀ s ∈ pieRenderedSlices data, 0 < s.value) := by
  refine ⟨make_svg_pie_chart_pos_eq data h, ?_, ?_⟩
  · exact pieSlicesAux_map_nameValue _ _ _ _
  · intro s hs
    exact (pieSlicesAux_mem (((data.map Prod.snd).sum : Nat) : Rat) _ _ _ s hs).2.2

/-- Witness for C10 at `[("a", 2), ("b", 0), ("c", 1)]`: the zero entry
is filtered out. -/
theorem pie_chart_skips_zero_witness :
    (pieRenderedSlices [("a", 2), ("b", 0), ("c", 1)]).map (fun s => (s.name, s.value))
      = (pieBucket PIE_CHART_MAX_ITEMS [("a", 2), ("b", 0), ("c", 1)]).filter
          (fun p => p.2 != 0) :=
  (pie_chart_skips_zero [("a", 2), ("b", 0), ("c", 1)] (by decide)).2.1

/-! ## Theorems for claim C8 (bar chart) -/

/-- Every member of a list is bounded by `listMax`. -/
theorem le_listMax (l : List Nat) (x : Nat) (hx : x ∈ l) : x ≤ listMax l := by
  induction l with
  | nil => simp at hx
  | cons y ys ih =>
    rcases List.mem_cons.mp hx with h | h
    · subst h
      exact le_max_left _ _
    · exact le_trans (ih h) (le_max_right _ _)

/-- C8: the empty series yields the empty document; the clamped
denominator is positive for every input (so the guarded
division-by-zero fallback is unreachable); and when the maximum value is
0 every rendered bar has width 0. -/
theorem bar_chart_safe (data : List (String × Nat))
    (hmax : listMax (data.map Prod.snd) = 0) :
    _make_svg_bar_chart [] = []
    ∧ (∀ data2 : List (String × Nat), 0 < clampedMax data2)
    ∧ (∀ x y w hue, BarElem.bar x y w hue ∈ _make_svg_bar_chart data → w = 0) := by
  refine ⟨rfl, ?_, ?_⟩
  · intro data2
    unfold clampedMax
    by_cases h : listMax (data2.map Prod.snd) = 0
    · simp [h]
    · simp [h]
      omega
  · intro x y w hue hmem
    by_cases hd : data = []
    · subst hd
      simp [_make_svg_bar_chart] at hmem
    · rw [_make_svg_bar_chart, if_neg hd] at hmem
      obtain ⟨sub, hsub, hin⟩ := List.mem_flatten.mp hmem
      obtain ⟨ip, hip, hrow⟩ := List.mem_map.mp hsub
      subst hrow
      have hp2 : ip.2.2 = 0 := by
        have hmem2 : ip.2.2 ∈ data.map Prod.snd := by
          apply List.mem_map_of_mem
          have : ip.2 ∈ data.enum.map Prod.snd := List.mem_map_of_mem _ hip
          rwa [List.enum_map_snd] at this
        have := le_listMax _ _ hmem2
        omega
      simp only [barRow, List.mem_cons, List.mem_singleton] at hin
      rcases hin with h | h | h
      · exact absurd h (by simp)
      · have hw : w = if 0 < clampedMax data
            then ((ip.2.2 : Rat) / (clampedMax data : Rat)) * (BAR_AREA_WIDTH : Rat)
            else 0 := by
          injection h with _ _ h3 _
        rw [hw, hp2]
        by_cases hc : 0 < clampedMax data <;> simp [hc]
      · exact absurd h (by simp)

/-- Witness for C8 on the all-zero series `[("a", 0), ("b", 0)]`. -/
theorem bar_chart_safe_witness :
    listMax ([("a", 0), ("b", 0)].map Prod.snd) = 0
    ∧ (∀ x y w hue, BarElem.bar x y w hue ∈ _make_svg_bar_chart [("a", 0), ("b", 0)]
        → w = 0) :=
  ⟨by decide, (bar_chart_safe [("a", 0), ("b", 0)] (by decide)).2.2⟩

/-! ## Theorems for claim C7 (single line chart) -/

/-- With at least 2 points, the chart's polylines are exactly one: the
one built from the values. -/
theorem polylinesOf_line_chart (dates : List String) (values : List Nat)
    (cw ch : Nat) (hg : ¬ (dates.length < 2 ∨ values.length < 2)) :
    polylinesOf (_make_single_line_chart dates values cw ch)
      = [linePoints values cw ch] := by
  rw [_make_single_line_chart, if_neg hg]
  rw [polylinesOf, List.filterMap_append, List.filterMap_append]
  have hA : (((List.range 5).map fun i =>
      [LineElem.yLabel ((20 : Rat) + (i : Rat) * (((ch : Rat) - 20 - 40)) / 4)
        ⌊((if listMax values = 0 then 1 else listMax values : Nat) : Rat) * (4 - (i : Rat)) / 4⌋,
       LineElem.gridLine ((20 : Rat) + (i : Rat) * (((ch : Rat) - 20 - 40)) / 4)]).flatten).filterMap
      (fun e => match e with
        | LineElem.polyline pts => some pts
        | _ => none) = [] := by
    rw [List.filterMap_eq_nil_iff]
    intro e he
    obtain ⟨sub, hsub, hin⟩ := List.mem_flatten.mp he
    obtain ⟨i, _, hrow⟩ := List.mem_map.mp hsub
    subst hrow
    rcases List.mem_cons.mp hin with h | h
    · subst h; rfl
    · rcases List.mem_singleton.mp h with rfl; rfl
  have hB : ((([0, dates.length / 2, dates.length - 1] : List Nat)).map fun (idx : Nat) =>
      LineElem.xLabel ((80 : Rat)
        + ((idx : Rat) / ((dates.length - 1 : Nat) : Rat)) * ((cw : Rat) - 80 - 20))
        (dates.getD idx "")).filterMap
      (fun e => match e with
        | LineElem.polyline pts => some pts
        | _ => none) = [] := by
    rw [List.filterMap_eq_nil_iff]
    intro e he
    obtain ⟨idx, _, hlab⟩ := List.mem_map.mp he
    subst hlab
    rfl
  rw [hA, hB]
  rfl

/-- C7: with fewer than 2 points the line chart is the empty document;
otherwise it contains exactly one polyline, with one point per input
value, whose x positions are evenly spaced by index — equal gaps of
`plot_width / (n - 1)` — and do not depend on the date strings at all. -/
theorem line_chart_spec (dates : List String) (values : List Nat)
    (cw ch : Nat) (hlen : dates.length = values.length) :
    (values.length < 2 → _make_single_line_chart dates values cw ch = [])
    ∧ (2 ≤ values.length →
        polylinesOf (_make_single_line_chart dates values cw ch)
          = [linePoints values cw ch]
        ∧ (linePoints values cw ch).length = values.length
        ∧ (∀ i : Nat, i < values.length →
            ((linePoints values cw ch).getD i (0, 0)).1
              = 80 + ((i : Rat) / ((values.length - 1 : Nat) : Rat)) * ((cw : Rat) - 80 - 20))
        ∧ (∀ i : Nat, i + 1 < values.length →
            ((linePoints values cw ch).getD (i + 1) (0, 0)).1
              - ((linePoints values cw ch).getD i (0, 0)).1
              = ((cw : Rat) - 80 - 20) / ((values.length - 1 : Nat) : Rat))
        ∧ (∀ dates2 : List String, dates2.length = dates.length →
            polylinesOf (_make_single_line_chart dates2 values cw ch)
              = polylinesOf (_make_single_line_chart dates values cw ch))) := by
  have hplen : (linePoints values cw ch).length = values.length := by
    simp [linePoints]
  have hx : ∀ i : Nat, i < values.length → 2 ≤ values.length →
      ((linePoints values cw ch).getD i (0, 0)).1
        = 80 + ((i : Rat) / ((values.length - 1 : Nat) : Rat)) * ((cw : Rat) - 80 - 20) := by
    intro i hi h2
    have hi' : i < (linePoints values cw ch).length := by omega
    rw [List.getD_eq_getElem _ _ hi']
    have hmax : max 1 (values.length - 1) = values.length - 1 :=
      Nat.max_eq_right (by omega)
    simp only [linePoints, List.getElem_map, List.getElem_enum, hmax]
  constructor
  · intro h2
    have hg : dates.length < 2 ∨ values.length < 2 := Or.inr h2
    rw [_make_single_line_chart, if_pos hg]
  · intro h2
    have hg : ¬ (dates.length < 2 ∨ values.length < 2) := by omega
    refine ⟨polylinesOf_line_chart dates values cw ch hg, hplen, ?_, ?_, ?_⟩
    · intro i hi
      exact hx i hi h2
    · intro i hi
      rw [hx i (by omega) h2, hx (i + 1) (by omega) h2]
      have hd : ((values.length - 1 : Nat) : Rat) ≠ 0 := by
        have : 1 ≤ values.length - 1 := by omega
        positivity
      push_cast
      field_simp
      ring
    · intro dates2 hd2
      have hg2 : ¬ (dates2.length < 2 ∨ values.length < 2) := by omega
      rw [polylinesOf_line_chart dates2 values cw ch hg2,
        polylinesOf_line_chart dates values cw ch hg]

/-- Witness for C7 at three points. -/
theorem line_chart_spec_witness :
    polylinesOf (_make_single_line_chart ["d1", "d2", "d3"] [100, 150, 225] 600 200)
      = [linePoints [100, 150, 225] 600 200] :=
  ((line_chart_spec ["d1", "d2", "d3"] [100, 150, 225] 600 200 (by decide)).2
    (by decide)).1

end Pkgdb
